import Mathlib

/-!
Verification of the LexiForge add-on core (src/ai_client.py, src/tts_client.py,
src/language_constants.py, src/__init__.py) against its specification.

Python strings are modelled as `List Char`; Python functions become Lean
functions over them.  Outbound HTTP traffic is modelled by oracle parameters
(`net`, `tts_net`): the function under test returns, beside its value, the
list of requests it issued, so "no request is made" is a provable statement.
Python exceptions that can escape a function are modelled with `Except`;
exceptions that the function itself catches are folded into its return value,
exactly as the source's `try/except` blocks do.
-/

namespace LexiForge

/-- Shorthand: the character list of a string literal. -/
def str (s : String) : List Char := s.data

/-- The left-brace character (written by code point to keep literals plain). -/
def lbrace : Char := Char.ofNat 123

/-- Python whitespace for `str.strip` / regex `\s` (ASCII part): space, tab,
newline, carriage return, vertical tab, form feed. -/
def pyIsSpace (c : Char) : Bool :=
  c = ' ' || c = '\t' || c = '\n' || c = '\r' || c = Char.ofNat 11 || c = Char.ofNat 12

/-- Python `str.strip()`: drop whitespace from both ends. -/
def pyStrip (l : List Char) : List Char :=
  ((l.dropWhile pyIsSpace).reverse.dropWhile pyIsSpace).reverse

/-- Python `str.lower()` (character-wise). -/
def pyLower (l : List Char) : List Char := l.map Char.toLower

/-- Python `needle in hay` for strings: substring occurrence test. -/
def pyIn (needle : List Char) : List Char → Bool
  | [] => needle.isPrefixOf []
  | c :: t => needle.isPrefixOf (c :: t) || pyIn needle t

/-- Python `s.replace(pat, val)`: replace all non-overlapping occurrences,
left to right, without rescanning the replacement text.  (Callers in this
development always pass a non-empty `pat`; for `pat = []` we return `s`.) -/
def replaceList (pat val : List Char) (s : List Char) : List Char :=
  match pat, s with
  | [], _ => s
  | _ :: _, [] => []
  | p :: ps, c :: rest =>
    if (p :: ps).isPrefixOf (c :: rest) then
      val ++ replaceList (p :: ps) val (List.drop ps.length rest)
    else
      c :: replaceList (p :: ps) val rest
termination_by s.length
decreasing_by
  · simp only [List.length_drop, List.length_cons]; omega
  · simp only [List.length_cons]; omega

/-- Python `s.split(newline)`. -/
def splitNL : List Char → List (List Char)
  | [] => [[]]
  | c :: rest =>
    if c = '\n' then [] :: splitNL rest
    else
      match splitNL rest with
      | [] => [[c]]
      | l :: ls => (c :: l) :: ls

/-- Python `newline.join(lines)`. -/
def joinNL : List (List Char) → List Char
  | [] => []
  | [l] => l
  | l :: l2 :: ls => l ++ '\n' :: joinNL (l2 :: ls)

/-- Python `sep.join(parts)`. -/
def joinSep (sep : List Char) : List (List Char) → List Char
  | [] => []
  | [l] => l
  | l :: l2 :: ls => l ++ sep ++ joinSep sep (l2 :: ls)

/-! ## Language table (src/language_constants.py) -/

/-- `SUPPORTED_LANGUAGES`: display name → Google TTS code. -/
def SUPPORTED_LANGUAGES : List (List Char × List Char) :=
  [ (str "English", str "en"), (str "Mandarin Chinese", str "zh-CN"),
    (str "Hindi", str "hi"), (str "Spanish", str "es"),
    (str "French", str "fr"), (str "Arabic", str "ar"),
    (str "Bengali", str "bn"), (str "Russian", str "ru"),
    (str "Portuguese", str "pt-BR"), (str "Urdu", str "ur"),
    (str "Indonesian", str "id"), (str "German", str "de"),
    (str "Japanese", str "ja"), (str "Turkish", str "tr"),
    (str "Korean", str "ko"), (str "Vietnamese", str "vi"),
    (str "Italian", str "it"), (str "Tamil", str "ta"),
    (str "Thai", str "th"), (str "Polish", str "pl") ]

/-- `get_lang_code` (src/language_constants.py): dictionary lookup with
default `"en"`. -/
def get_lang_code (language_name : List Char) : List Char :=
  match SUPPORTED_LANGUAGES.find? (fun p => p.1 == language_name) with
  | some p => p.2
  | none => str "en"

/-! ## Speech-synthesis client (src/tts_client.py) -/

/-- One GET to the Google Translate TTS endpoint (src/tts_client.py lines
44-48): the varying query parameters `q` (the text) and `tl` (the language
code); `ie=UTF-8` and `client=tw-ob` are constants of the URL. -/
structure TtsRequest where
  q : List Char
  tl : List Char
deriving DecidableEq

/-- `download_audio` (src/tts_client.py lines 30-72).  `net` models
`urllib.request.urlopen` (`none` = the request raised); `writeOk` models the
`open`/`write` of the response body (`false` = the write raised).  Both
exceptions are caught by the function's `except Exception`, which returns
`False`.  The second component is the list of HTTP requests issued.  Note the
source performs no validation of `text` before building the URL and issuing
the request. -/
def download_audio (text language_name : List Char)
    (net : TtsRequest → Option (List Nat)) (writeOk : Bool) :
    Bool × List TtsRequest :=
  let lang_code := get_lang_code language_name
  let req : TtsRequest := ⟨text, lang_code⟩
  match net req with
  | some _ => if writeOk then (true, [req]) else (false, [req])
  | none => (false, [req])

/-! ## Prompt templates and placeholder tokens (src/ai_client.py) -/

/-- The literal placeholder token of the word-analysis template. -/
def TOK_WORD : List Char := str "\x7b\x7bword\x7d\x7d"

/-- The literal placeholder token of the word-analysis template. -/
def TOK_SOURCE_LANG : List Char := str "\x7b\x7bsource_lang\x7d\x7d"

/-- The literal placeholder token of the word-analysis template. -/
def TOK_DEFINITION_LANG : List Char := str "\x7b\x7bdefinition_lang\x7d\x7d"

/-- The literal placeholder token of the story template. -/
def TOK_WORDS : List Char := str "\x7b\x7bwords\x7d\x7d"

/-- The literal placeholder token of the story template. -/
def TOK_LEVEL : List Char := str "\x7b\x7blevel\x7d\x7d"

/-- The literal placeholder token of the story template. -/
def TOK_WORD_COUNT : List Char := str "\x7b\x7bword_count\x7d\x7d"

/-- `get_default_prompt_template` (src/ai_client.py lines 13-26). -/
def DEFAULT_PROMPT_TEMPLATE : List Char :=
  str ("Analyze the word ‘\x7b\x7bword\x7d\x7d’ in \x7b\x7bsource_lang\x7d\x7d.\n" ++
    "\t1.\tFind its base form (lemma).\n" ++
    "\t2.\tTranslate this base form into \x7b\x7bdefinition_lang\x7d\x7d:\n" ++
    "\t•\tIf it is a simple common word (e.g. ‘cat’, ‘milk’, ‘run’), give only a one-word translation in \x7b\x7bdefinition_lang\x7d\x7d.\n" ++
    "\t•\tOtherwise give the translation in \x7b\x7bdefinition_lang\x7d\x7d plus a very short 4-7 word definition in parentheses.\n" ++
    "\t3.\tGive 1 example sentence in \x7b\x7bsource_lang\x7d\x7d using the base form.\n\n" ++
    "Format the answer exactly as:\n" ++
    "BASE_FORM: [base form in \x7b\x7bsource_lang\x7d\x7d]\n" ++
    "DEFINITION: [translation/definition in \x7b\x7bdefinition_lang\x7d\x7d]\n" ++
    "EXAMPLE: [sentence in \x7b\x7bsource_lang\x7d\x7d using the base form]\n\n" ++
    "Do not use markdown formatting.")

/-- `get_default_story_prompt_template` (src/ai_client.py lines 29-50). -/
def DEFAULT_STORY_PROMPT_TEMPLATE : List Char :=
  str ("Analyze the following words and detect their language: \x7b\x7bwords\x7d\x7d\n\n" ++
    "Then create an engaging and educational short story (\x7b\x7bword_count\x7d\x7d) IN THE EXACT SAME LANGUAGE as these words.\n\n" ++
    "IMPORTANT: The story MUST be written in the same language as the input words. Do not translate or use any other language.\n\n" ++
    "Requirements:\n" ++
    "- Detect the language of the words first\n" ++
    "- Write the ENTIRE story in that detected language\n" ++
    "- Use all or most of the provided words naturally in context\n" ++
    "- Highlight the studied words by wrapping them in **bold** (using **word** format)\n" ++
    "- Make the story interesting and memorable\n" ++
    "- Keep the language level appropriate for \x7b\x7blevel\x7d\x7d learners (CEFR \x7b\x7blevel\x7d\x7d)\n" ++
    "- The story should be approximately \x7b\x7bword_count\x7d\x7d\n" ++
    "- Add a title to the story in the same language\n\n" ++
    "Format your response as:\n" ++
    "Title: [Story Title in the detected language]\n\n" ++
    "[Story text with **highlighted** words in the detected language]")

/-- The detection instruction prepended when `source_lang` is `"Auto"`
(src/ai_client.py lines 88-89). -/
def AUTO_DETECT_PREFIX : List Char :=
  str ("First, detect the language of the word \x27\x7b\x7bword\x7d\x7d\x27" ++
    " and use that language as \x7b\x7bsource_lang\x7d\x7d.\n")

/-- The template handling of `generate_content` (src/ai_client.py lines
83-95): pick the default template when none is given, apply the auto-detect
rewrite, then replace the three tokens in the source's order (`word`, then
`source_lang`, then `definition_lang`). -/
def renderWordPrompt (prompt_template : Option (List Char))
    (word source_lang definition_lang : List Char) : List Char :=
  let template := prompt_template.getD DEFAULT_PROMPT_TEMPLATE
  let p :=
    if pyLower source_lang == str "auto" then
      (AUTO_DETECT_PREFIX ++ template, str "the detected language")
    else (template, source_lang)
  replaceList TOK_DEFINITION_LANG definition_lang
    (replaceList TOK_SOURCE_LANG p.2
      (replaceList TOK_WORD word p.1))

/-! ## Word-analysis response parser (src/ai_client.py, parse_response,
lines 156-182)

The source matches each label with `re.search(r"LABEL:\s*(.+)", text,
re.IGNORECASE)`.  The model below reproduces exact regex semantics:
`re.search` tries every start position left to right; at a start position
the literal label is compared case-insensitively; `\s*` greedily consumes
whitespace (which may include newlines) and backtracks; `(.+)` then captures
one or more non-newline characters, greedily, i.e. up to the end of that
line. -/

/-- Case-insensitive literal match of `label` (given in lower case) at the
head of `l`. -/
def ciPrefixOf : List Char → List Char → Bool
  | [], _ => true
  | _ :: _, [] => false
  | a :: la, c :: lc => a == c.toLower && ciPrefixOf la lc

/-- `\s*(.+)` applied at the head of the input, with the regex engine's
greedy-then-backtrack behaviour for `\s*`. -/
def wsCapture : List Char → Option (List Char)
  | [] => none
  | c :: rest =>
    if pyIsSpace c then
      match wsCapture rest with
      | some cap => some cap
      | none =>
        if c = '\n' then none
        else some ((c :: rest).takeWhile (fun x => x != '\n'))
    else some ((c :: rest).takeWhile (fun x => x != '\n'))

/-- `re.search(label + \s*(.+), text, re.IGNORECASE).group(1)`: the first
start position where the whole pattern matches wins. -/
def reCapture (label : List Char) : List Char → Option (List Char)
  | [] => none
  | c :: rest =>
    if ciPrefixOf label (c :: rest) then
      match wsCapture (List.drop label.length (c :: rest)) with
      | some cap => some cap
      | none => reCapture label rest
    else reCapture label rest

/-- One field of `parse_response`: the captured group stripped, or the empty
string when the regex does not match (src/ai_client.py lines 178-180). -/
def fieldOf (label text : List Char) : List Char :=
  match reCapture label text with
  | some cap => pyStrip cap
  | none => []

/-- The markdown-stripping step of `parse_response` (src/ai_client.py line
171): `text.replace("**", "").replace("*", "")`. -/
def stripMarkdown (t : List Char) : List Char :=
  replaceList (str "*") [] (replaceList (str "**") [] t)

/-- `parse_response` (src/ai_client.py lines 156-182).  Returns
`(definition, example, base_form)`. -/
def parse_response (text : List Char) : List Char × List Char × List Char :=
  let t := stripMarkdown text
  (fieldOf (str "definition:") t, fieldOf (str "example:") t,
   fieldOf (str "base_form:") t)

/-! ## The generative-language HTTP interface -/

/-- One element of the response's `parts` array: a dict that may lack
`"text"`. -/
structure GeminiPart where
  text : Option (List Char)

/-- The response's `content` dict, which may lack `"parts"`. -/
structure GeminiContent where
  parts : Option (List GeminiPart)

/-- One element of the response's `candidates` array, which may lack
`"content"`. -/
structure GeminiCandidate where
  content : Option GeminiContent

/-- The decoded JSON body of a 200 response, which may lack
`"candidates"`. -/
structure GeminiResult where
  candidates : Option (List GeminiCandidate)

/-- The extraction `result["candidates"][0]["content"]["parts"][0]["text"]`.
In `generate_content` (src/ai_client.py lines 112-127) each step is guarded
and a failure raises `KeyError`, caught locally; in
`generate_story_with_words` (line 451) the chain is indexed directly and a
failure raises `KeyError`/`IndexError`, caught locally.  Both reduce to:
the text when the whole path is present, nothing otherwise. -/
def extract_text (result : GeminiResult) : Option (List Char) :=
  match result.candidates with
  | none => none
  | some [] => none
  | some (cand :: _) =>
    match cand.content with
    | none => none
    | some content =>
      match content.parts with
      | none => none
      | some [] => none
      | some (part :: _) => part.text

/-- A POST to `models/{model}:generateContent`: the data that varies between
requests (the model in the URL, the prompt carried as the single text part,
and for story calls the `generationConfig.maxOutputTokens`; story calls also
fix temperature 0.9, topK 40, topP 0.95). -/
structure GenRequest where
  model : List Char
  prompt : List Char
  maxOutputTokens : Option Nat
deriving DecidableEq

/-- What `urllib.request.urlopen` + `json.loads` produced for one request:
a decoded 200 body, an `HTTPError` with status and body, a `URLError` with a
reason, or any other exception rendered as its message. -/
inductive HttpOutcome where
  | success (result : GeminiResult)
  | httpError (code : Nat) (body : List Char)
  | urlError (reason : List Char)
  | otherError (msg : List Char)

/-- The `ValueError` message of `generate_content` (src/ai_client.py line
79). -/
def VALUE_ERROR_EMPTY_KEY : List Char := str "API key is required and cannot be empty"

/-- `generate_content` (src/ai_client.py lines 53-153).  `Except.error`
models the one exception this function can raise past its boundary: the
`ValueError` for an empty/whitespace API key (line 78-79, checked before the
`try`).  Every other failure is caught inside the function and rendered as an
error triple.  The second component is the list of generateContent requests
issued (the additional diagnostic `list_models` GET on a 404, line 145, is a
different endpoint and is not part of this log). -/
def generate_content (word source_lang api_key model definition_lang : List Char)
    (prompt_template : Option (List Char)) (net : GenRequest → HttpOutcome) :
    Except (List Char) (List Char × List Char × List Char) × List GenRequest :=
  if api_key == [] || pyStrip api_key == [] then
    (Except.error VALUE_ERROR_EMPTY_KEY, [])
  else
    let prompt := renderWordPrompt prompt_template word source_lang definition_lang
    let req : GenRequest := ⟨model, prompt, none⟩
    match net req with
    | .success result =>
      match extract_text result with
      | some text => (Except.ok (parse_response text), [req])
      | none => (Except.ok (str "Error parsing AI response", [], word), [req])
    | .httpError code _ => (Except.ok (str "API Error: " ++ str (toString code), [], word), [req])
    | .urlError reason => (Except.ok (str "Network Error: " ++ reason, [], word), [req])
    | .otherError msg => (Except.ok (str "Error: " ++ msg, [], word), [req])

/-! ## Story generation (src/ai_client.py, generate_story_with_words,
lines 359-503; an identical earlier copy sits at lines 212-356 and is
shadowed by this one) -/

/-- The fixed message for an empty word list (src/ai_client.py line 384). -/
def NO_WORDS_MSG : List Char := str "No words available to generate a story."

/-- What the story call actually returns on a missing
candidates/content/parts/text path: the `except (KeyError, IndexError)`
handler (src/ai_client.py lines 473-495) builds its diagnostic and then
evaluates `os.path.expanduser(...)` (line 487) — but src/ai_client.py never
imports `os` (nor `datetime`, line 489), so that line raises `NameError`,
which the enclosing `except Exception` (line 501) catches and renders as
the generic story error message followed by the exception text. -/
def STORY_NAME_ERROR_MSG : List Char :=
  str "Error generating story: name \x27os\x27 is not defined"

/-- The `length_config` lookup (src/ai_client.py lines 389-397):
`length_config.get(length, length_config["short"])`, giving the word-count
phrase and the token budget. -/
def lengthConfig (length : List Char) : List Char × Nat :=
  if length == str "short" then (str "100-150 words", 1500)
  else if length == str "medium" then (str "200-300 words", 2500)
  else if length == str "long" then (str "400-500 words", 4000)
  else (str "100-150 words", 1500)

/-- The story template handling (src/ai_client.py lines 399-420): default
template when none given; replace `words`, `level`, `word_count` in that
order; then, when the language is not `"auto"`, rewrite the five
detect-the-language phrases into direct instructions naming the language. -/
def renderStoryPrompt (prompt_template : Option (List Char))
    (words_list level word_count language : List Char) : List Char :=
  let template := prompt_template.getD DEFAULT_STORY_PROMPT_TEMPLATE
  let prompt :=
    replaceList TOK_WORD_COUNT word_count
      (replaceList TOK_LEVEL level
        (replaceList TOK_WORDS words_list template))
  if pyLower language == str "auto" then prompt
  else
    replaceList (str "in the detected language") (str "in " ++ language)
      (replaceList (str "Write the ENTIRE story in that detected language")
        (str "Write the ENTIRE story in " ++ language)
        (replaceList (str "Detect the language of the words first") []
          (replaceList (str "IN THE EXACT SAME LANGUAGE as these words")
            (str "in " ++ language)
            (replaceList (str "Analyze the following words and detect their language")
              (str "Use the following words in " ++ language) prompt))))

/-- A line mentioning a detected-language header (src/ai_client.py line
460): `'linguagem detectada' in line.lower() or 'detected language' in
line.lower()`. -/
def isHeaderLine (line : List Char) : Bool :=
  pyIn (str "linguagem detectada") (pyLower line) ||
    pyIn (str "detected language") (pyLower line)

/-- The line-filtering loop of the story cleaner (src/ai_client.py lines
456-469), with `skipNext` the loop's `skip_next` flag: header lines are
dropped and set the flag; while the flag is set, blank lines are dropped
(flag kept) and bare `***`/`---` lines are dropped (flag cleared); any other
line clears the flag and is kept verbatim. -/
def cleanLoop (skipNext : Bool) : List (List Char) → List (List Char)
  | [] => []
  | line :: rest =>
    if isHeaderLine line then cleanLoop true rest
    else if skipNext &&
        (pyStrip line == str "***" || pyStrip line == str "---" || pyStrip line == []) then
      if pyStrip line == str "***" || pyStrip line == str "---" then cleanLoop false rest
      else cleanLoop true rest
    else line :: cleanLoop false rest

/-- The story cleaner (src/ai_client.py lines 453-471): split into lines,
run the filtering loop, rejoin, and strip the result. -/
def storyClean (s : List Char) : List Char :=
  pyStrip (joinNL (cleanLoop false (splitNL s)))

/-- `generate_story_with_words` (src/ai_client.py lines 359-503).  The
second component is the list of generateContent requests issued.  All
exceptions are caught inside the function (see `STORY_NAME_ERROR_MSG` for
the parsing-error path), so the return type carries no `Except`. -/
def generate_story_with_words (words : List (List Char))
    (_api_key model language level length : List Char)
    (prompt_template : Option (List Char)) (net : GenRequest → HttpOutcome) :
    List Char × List GenRequest :=
  if words.isEmpty then (NO_WORDS_MSG, [])
  else
    let words_list := joinSep (str ", ") (words.take 30)
    let cfg := lengthConfig length
    let prompt := renderStoryPrompt prompt_template words_list level cfg.1 language
    let req : GenRequest := ⟨model, prompt, some cfg.2⟩
    match net req with
    | .success result =>
      match extract_text result with
      | some story_text => (storyClean story_text, [req])
      | none => (STORY_NAME_ERROR_MSG, [req])
    | .httpError code body =>
      (str "API Error: " ++ str (toString code) ++ str "\n\n" ++ body, [req])
    | .urlError reason => (str "Error generating story: " ++ reason, [req])
    | .otherError msg => (str "Error generating story: " ++ msg, [req])

/-! ## Field mapper (src/__init__.py, get_field_mapping, lines 406-423) -/

/-- The `field_mapping` sub-dictionary of the configuration: each key may be
absent. -/
structure FieldMappingCfg where
  word_field : Option (List Char)
  definition_field : Option (List Char)
  example_field : Option (List Char)

/-- `get_field_mapping` (src/__init__.py lines 406-423).  `fields` is
`note.keys()`; `fm` is `config.get("field_mapping")` (`none` when the key is
absent, in which case the source uses `{}`). -/
def get_field_mapping (fields : List (List Char)) (fm : Option FieldMappingCfg) :
    List Char × List Char × List Char :=
  match fields with
  | [a, b] => (a, b, b)
  | _ =>
    let m := fm.getD ⟨none, none, none⟩
    (m.word_field.getD (str "Front"),
     m.definition_field.getD (str "Back"),
     m.example_field.getD (str "Back"))

/-! ## Word-analysis orchestrator (src/__init__.py) -/

/-- The configuration-error message of `_generate_content_and_audio`
(src/__init__.py line 483). -/
def CONFIG_ERROR_MSG : List Char :=
  str "Please configure your API Key in Tools -> LexiForge Settings"

/-- The result dictionary of `_generate_content_and_audio`: either the
`error` dict or the generated-content dict (src/__init__.py lines 483 and
497-504). -/
inductive GenOutcome where
  | failure (msg : List Char)
  | success (definition examples base_form : List Char)
      (audio_file : Option (List Char)) (source_lang definition_lang : List Char)
deriving DecidableEq

/-- `_generate_audio_filename` (src/__init__.py lines 465-471); `now` models
`int(time.time())`. -/
def _generate_audio_filename (target_word source_lang : List Char) (now : Nat) :
    List Char :=
  let safe_word :=
    pyStrip (target_word.filter (fun c => c.isAlphanum || c = ' ' || c = '-' || c = '_'))
  str "lexiforge_" ++ safe_word ++ str "_" ++ get_lang_code source_lang ++
    str "_" ++ str (toString now) ++ str ".mp3"

/-- `_generate_content_and_audio` (src/__init__.py lines 474-504).
`api_key` is `conf.get("api_key")` (`none` = key absent), `model` is
`conf.get("model", ...)` before its default, `prompt_template_cfg` is
`conf.get("prompt_template", "")`.  `Except.error` models an exception
escaping this function: the code guards only against a falsy key or a
placeholder key (line 482), then calls `generate_content`, whose
`ValueError` for a whitespace-only key is not caught here and propagates.
The audio download's own failures are absorbed into `audio_file = none`. -/
def _generate_content_and_audio (word source_lang definition_lang : List Char)
    (api_key : Option (List Char)) (model : Option (List Char))
    (prompt_template_cfg : List Char) (net : GenRequest → HttpOutcome)
    (tts_net : TtsRequest → Option (List Nat)) (writeOk : Bool) (now : Nat) :
    Except (List Char) GenOutcome × List GenRequest :=
  match api_key with
  | none => (Except.ok (GenOutcome.failure CONFIG_ERROR_MSG), [])
  | some k =>
    if k == [] || pyIn (str "YOUR_KEY") k then
      (Except.ok (GenOutcome.failure CONFIG_ERROR_MSG), [])
    else
      let model' := model.getD (str "gemini-flash-latest")
      let prompt_template := if prompt_template_cfg == [] then none else some prompt_template_cfg
      match generate_content word source_lang k model' definition_lang prompt_template net with
      | (Except.error e, log) => (Except.error e, log)
      | (Except.ok (definition, examples, base_form), log) =>
        let target_word := if base_form == [] then word else base_form
        let filename := _generate_audio_filename target_word source_lang now
        let ok := (download_audio target_word source_lang tts_net writeOk).1
        (Except.ok (GenOutcome.success definition examples base_form
          (if ok then some filename else none) source_lang definition_lang), log)

/-- The `background_op` closure of `on_generate_click` (src/__init__.py
lines 551-555): it wraps `_generate_content_and_audio` in
`try/except Exception`, turning any escaped exception into the error dict,
so the value delivered to the completion callback is always a plain
outcome. -/
def background_op (word source_lang definition_lang : List Char)
    (api_key : Option (List Char)) (model : Option (List Char))
    (prompt_template_cfg : List Char) (net : GenRequest → HttpOutcome)
    (tts_net : TtsRequest → Option (List Nat)) (writeOk : Bool) (now : Nat) :
    GenOutcome :=
  match _generate_content_and_audio word source_lang definition_lang api_key model
      prompt_template_cfg net tts_net writeOk now with
  | (Except.ok d, _) => d
  | (Except.error e, _) => GenOutcome.failure e

/-! ## Segment decomposition of templates

Used to state when placeholder substitution is order-independent: a template
that is a concatenation of brace-free literal text and whole placeholder
tokens, with token-free replacement values. -/

/-- A template segment: literal text or a placeholder token. -/
inductive Seg where
  | lit (l : List Char)
  | tok (t : List Char)

/-- Flatten a segment list to the template string it denotes. -/
def flatSegs : List Seg → List Char
  | [] => []
  | Seg.lit l :: r => l ++ flatSegs r
  | Seg.tok t :: r => t ++ flatSegs r

/-- Substitute one token by its value at the segment level. -/
def substSeg (a v : List Char) : Seg → Seg
  | Seg.lit l => Seg.lit l
  | Seg.tok t => if t = a then Seg.lit v else Seg.tok t

/-- A string is brace-free (contains no opening brace, so it can neither
hold nor begin a placeholder token). -/
def braceFree (l : List Char) : Bool := l.all (fun c => c != lbrace)

/-- Segment wellformedness for a token set: literals are brace-free and
tokens belong to the set. -/
def segWf (toks : List (List Char)) : Seg → Bool
  | Seg.lit l => braceFree l
  | Seg.tok t => toks.contains t

/-- No occurrence of `a` can start strictly inside `t` (and run on into
whatever follows `t`): at every start offset of `t`, neither is `a` a prefix
of the rest of `t`, nor is the rest of `t` a prefix of `a`. -/
def crossFreeB (a t : List Char) : Bool :=
  (List.range t.length).all
    (fun q => !(a.isPrefixOf (t.drop q)) && !((t.drop q).isPrefixOf a))

/-- Wellformedness of a token set: every token is non-empty and starts with
an opening brace, and no token can begin inside another (or inside itself at
a positive offset). -/
def tokSetOk (toks : List (List Char)) : Bool :=
  (toks.all fun t => match t with | [] => false | c :: _ => c == lbrace) &&
    (toks.all fun a => toks.all fun t => a == t || crossFreeB a t)

/-- The word-analysis placeholder tokens (src/ai_client.py lines 92-95). -/
def WORD_TOKENS : List (List Char) := [TOK_WORD, TOK_SOURCE_LANG, TOK_DEFINITION_LANG]

/-- The story placeholder tokens (src/ai_client.py lines 402-405). -/
def STORY_TOKENS : List (List Char) := [TOK_WORDS, TOK_LEVEL, TOK_WORD_COUNT]

/-! # Lemmas -/

theorem replaceList_nil (pat val : List Char) : replaceList pat val [] = [] := by
  cases pat <;> simp [replaceList]

theorem isPrefixOf_append_cancel (x a b : List Char) :
    (x ++ a).isPrefixOf (x ++ b) = a.isPrefixOf b := by
  induction x with
  | nil => rfl
  | cons c x ih => simp [List.isPrefixOf, ih]

theorem isPrefixOf_append_right (a m : List Char) :
    a.isPrefixOf (a ++ m) = true := by
  have h := isPrefixOf_append_cancel a [] m
  simp only [List.append_nil] at h
  rw [h]
  cases m <;> simp [List.isPrefixOf]

theorem isPrefixOf_iff_exists (a l : List Char) :
    a.isPrefixOf l = true ↔ ∃ m, l = a ++ m := by
  constructor
  · intro h
    induction a generalizing l with
    | nil => exact ⟨l, rfl⟩
    | cons c a ih =>
      cases l with
      | nil => simp [List.isPrefixOf] at h
      | cons d l =>
        simp only [List.isPrefixOf, Bool.and_eq_true, beq_iff_eq] at h
        obtain ⟨m, hm⟩ := ih l h.2
        exact ⟨m, by simp [h.1, hm]⟩
  · rintro ⟨m, rfl⟩
    exact isPrefixOf_append_right a m

theorem isPrefixOf_append_cases (a x m : List Char)
    (h : a.isPrefixOf (x ++ m) = true) :
    a.isPrefixOf x = true ∨ x.isPrefixOf a = true := by
  induction a generalizing x with
  | nil => left; cases x <;> simp [List.isPrefixOf]
  | cons b a ih =>
    cases x with
    | nil => right; simp [List.isPrefixOf]
    | cons c x =>
      simp only [List.cons_append, List.isPrefixOf, Bool.and_eq_true, beq_iff_eq] at h
      rcases ih x h.2 with hx | hx
      · left; simp [List.isPrefixOf, h.1, hx]
      · right; simp [List.isPrefixOf, h.1, hx]

theorem pyIn_iff (needle hay : List Char) :
    pyIn needle hay = true ↔ ∃ u v, hay = u ++ needle ++ v := by
  induction hay with
  | nil =>
    constructor
    · intro h
      cases needle with
      | nil => exact ⟨[], [], rfl⟩
      | cons c n => simp [pyIn, List.isPrefixOf] at h
    · rintro ⟨u, v, huv⟩
      have hu : u = [] := by
        cases u <;> simp_all
      have hn : needle = [] := by
        subst hu; cases needle <;> simp_all
      subst hn; simp [pyIn, List.isPrefixOf]
  | cons c t ih =>
    simp only [pyIn, Bool.or_eq_true]
    constructor
    · intro h
      rcases h with h | h
      · obtain ⟨m, hm⟩ := (isPrefixOf_iff_exists _ _).mp h
        exact ⟨[], m, by simp [hm]⟩
      · obtain ⟨u, v, huv⟩ := ih.mp h
        exact ⟨c :: u, v, by simp [huv]⟩
    · rintro ⟨u, v, huv⟩
      cases u with
      | nil =>
        left
        simp only [List.nil_append] at huv
        rw [huv]
        exact isPrefixOf_append_right needle v
      | cons d u =>
        right
        apply ih.mpr
        refine ⟨u, v, ?_⟩
        simpa using congrArg List.tail huv

theorem pyIn_of_mem_append (needle u v : List Char) :
    pyIn needle (u ++ needle ++ v) = true :=
  (pyIn_iff needle _).mpr ⟨u, v, rfl⟩

theorem pyIn_extend (needle b x y : List Char) (h : pyIn needle b = true) :
    pyIn needle (x ++ b ++ y) = true := by
  obtain ⟨u, v, rfl⟩ := (pyIn_iff needle b).mp h
  have : x ++ (u ++ needle ++ v) ++ y = (x ++ u) ++ needle ++ (v ++ y) := by simp
  rw [this]
  exact pyIn_of_mem_append needle _ _

theorem mem_of_pyIn (needle hay : List Char) (c : Char) (hc : c ∈ needle)
    (h : pyIn needle hay = true) : c ∈ hay := by
  obtain ⟨u, v, rfl⟩ := (pyIn_iff needle hay).mp h
  simp [hc]

theorem replaceList_skip_head (p : Char) (ps val l m : List Char)
    (hl : ∀ c ∈ l, c ≠ p) :
    replaceList (p :: ps) val (l ++ m) = l ++ replaceList (p :: ps) val m := by
  induction l with
  | nil => rfl
  | cons c l ih =>
    have hc : c ≠ p := hl c (List.mem_cons_self c l)
    have hpre : (p :: ps).isPrefixOf (c :: (l ++ m)) = false := by
      simp [List.isPrefixOf, beq_iff_eq]
      intro h
      exact absurd h.symm hc
    rw [List.cons_append, replaceList, hpre]
    simp only [Bool.false_eq_true, if_false, List.cons_append, List.cons.injEq, true_and]
    exact ih (fun d hd => hl d (List.mem_cons_of_mem c hd))

theorem replaceList_id_of_no_head (p : Char) (ps val l : List Char)
    (hl : ∀ c ∈ l, c ≠ p) :
    replaceList (p :: ps) val l = l := by
  have h := replaceList_skip_head p ps val l [] hl
  simp only [List.append_nil, replaceList_nil] at h
  exact h

theorem replaceList_match_head (p : Char) (ps val m : List Char) :
    replaceList (p :: ps) val ((p :: ps) ++ m) = val ++ replaceList (p :: ps) val m := by
  rw [List.cons_append, replaceList]
  have hpre : (p :: ps).isPrefixOf (p :: (ps ++ m)) = true := by
    have := isPrefixOf_append_right (p :: ps) m
    simpa using this
  rw [hpre]
  simp [List.drop_left]

theorem crossFreeB_spec (a t : List Char) (h : crossFreeB a t = true) (q : Nat)
    (hq : q < t.length) :
    a.isPrefixOf (t.drop q) = false ∧ (t.drop q).isPrefixOf a = false := by
  simp only [crossFreeB, List.all_eq_true, List.mem_range] at h
  have := h q hq
  simp only [Bool.and_eq_true, Bool.not_eq_true'] at this
  exact this

theorem replaceList_skip_token (p : Char) (ps val t m : List Char)
    (hcross : ∀ q, q < t.length →
      (p :: ps).isPrefixOf (t.drop q) = false ∧ (t.drop q).isPrefixOf (p :: ps) = false) :
    replaceList (p :: ps) val (t ++ m) = t ++ replaceList (p :: ps) val m := by
  induction t with
  | nil => rfl
  | cons c t ih =>
    have h0 := hcross 0 (by simp)
    simp only [List.drop_zero] at h0
    have hpre : (p :: ps).isPrefixOf (c :: (t ++ m)) = false := by
      cases hb : (p :: ps).isPrefixOf (c :: (t ++ m)) with
      | false => rfl
      | true =>
        have hb' : (p :: ps).isPrefixOf ((c :: t) ++ m) = true := hb
        rcases isPrefixOf_append_cases (p :: ps) (c :: t) m hb' with hx | hx
        · rw [h0.1] at hx; exact absurd hx (by simp)
        · rw [h0.2] at hx; exact absurd hx (by simp)
    rw [List.cons_append, replaceList, hpre]
    simp only [Bool.false_eq_true, if_false, List.cons_append, List.cons.injEq, true_and]
    apply ih
    intro q hq
    have := hcross (q + 1) (by simpa using Nat.succ_lt_succ hq)
    simpa using this

theorem flatSegs_lit (l : List Char) (r : List Seg) :
    flatSegs (Seg.lit l :: r) = l ++ flatSegs r := rfl

theorem flatSegs_tok (t : List Char) (r : List Seg) :
    flatSegs (Seg.tok t :: r) = t ++ flatSegs r := rfl

theorem tokSetOk_head (toks : List (List Char)) (h : tokSetOk toks = true)
    (a : List Char) (ha : a ∈ toks) : ∃ ps, a = lbrace :: ps := by
  simp only [tokSetOk, Bool.and_eq_true, List.all_eq_true] at h
  have := h.1 a ha
  cases a with
  | nil => simp at this
  | cons c ps =>
    simp only [beq_iff_eq] at this
    exact ⟨ps, by rw [this]⟩

theorem tokSetOk_cross (toks : List (List Char)) (h : tokSetOk toks = true)
    (a t : List Char) (ha : a ∈ toks) (ht : t ∈ toks) (hne : t ≠ a) :
    crossFreeB a t = true := by
  simp only [tokSetOk, Bool.and_eq_true, List.all_eq_true] at h
  have := h.2 a ha t ht
  rcases Bool.or_eq_true_iff.mp this with heq | hcf
  · exact absurd (beq_iff_eq.mp heq).symm hne
  · exact hcf

theorem braceFree_spec (l : List Char) (h : braceFree l = true) :
    ∀ c ∈ l, c ≠ lbrace := by
  simp only [braceFree, List.all_eq_true, bne_iff_ne, ne_eq] at h
  exact h

theorem replaceList_flatSegs (toks : List (List Char)) (a v : List Char)
    (htoks : tokSetOk toks = true) (ha : a ∈ toks)
    (S : List Seg) (hS : ∀ s ∈ S, segWf toks s = true) :
    replaceList a v (flatSegs S) = flatSegs (S.map (substSeg a v)) := by
  obtain ⟨ps, hps⟩ := tokSetOk_head toks htoks a ha
  induction S with
  | nil => simp [flatSegs, replaceList_nil]
  | cons s r ih =>
    have hs := hS s (List.mem_cons_self s r)
    have hr : ∀ s ∈ r, segWf toks s = true :=
      fun x hx => hS x (List.mem_cons_of_mem s hx)
    cases s with
    | lit l =>
      have hbl : ∀ c ∈ l, c ≠ lbrace := braceFree_spec l hs
      rw [flatSegs_lit]
      simp only [List.map_cons, substSeg]
      rw [flatSegs_lit, hps]
      rw [replaceList_skip_head lbrace ps v l _ hbl]
      rw [← hps, ih hr]
    | tok t =>
      by_cases het : t = a
      · subst het
        rw [flatSegs_tok]
        simp only [List.map_cons, substSeg, eq_self_iff_true, if_true]
        rw [flatSegs_lit]
        conv_lhs => rw [hps]
        rw [replaceList_match_head lbrace ps v (flatSegs r)]
        rw [← hps, ih hr]
      · have htm : t ∈ toks := by
          simp only [segWf] at hs
          exact List.elem_iff.mp hs
        have hcf := tokSetOk_cross toks htoks a t ha htm het
        rw [flatSegs_tok]
        simp only [List.map_cons, substSeg, if_neg het]
        rw [flatSegs_tok, hps]
        rw [replaceList_skip_token lbrace ps v t _
          (fun q hq => by
            have := crossFreeB_spec a t hcf q hq
            rw [hps] at this
            exact this)]
        rw [← hps, ih hr]

theorem substSeg_preserves_wf (toks : List (List Char)) (a v : List Char)
    (hv : braceFree v = true) (s : Seg) (hs : segWf toks s = true) :
    segWf toks (substSeg a v s) = true := by
  cases s with
  | lit l => exact hs
  | tok t =>
    by_cases het : t = a
    · simp [substSeg, het, segWf, hv]
    · simp [substSeg, het, hs]

theorem substSeg_comm (a va b vb : List Char) (hab : a ≠ b) (s : Seg) :
    substSeg b vb (substSeg a va s) = substSeg a va (substSeg b vb s) := by
  have hba : b ≠ a := fun h => hab h.symm
  cases s with
  | lit l => rfl
  | tok t =>
    by_cases hta : t = a
    · subst hta
      simp [substSeg, hab, hba]
    · by_cases htb : t = b
      · subst htb
        simp [substSeg, hta, hba]
      · simp [substSeg, hta, htb]

theorem cleanLoop_no_header (b : Bool) (ls : List (List Char)) :
    ∀ l ∈ cleanLoop b ls, isHeaderLine l = false := by
  induction ls generalizing b with
  | nil => intro l hl; simp [cleanLoop] at hl
  | cons line rest ih =>
    intro l hl
    by_cases hh : isHeaderLine line = true
    · rw [cleanLoop, if_pos hh] at hl
      exact ih true l hl
    · have hh' : isHeaderLine line = false := by
        cases hb : isHeaderLine line
        · rfl
        · exact absurd hb hh
      rw [cleanLoop, if_neg (by simp [hh'])] at hl
      by_cases hsup : (b &&
          (pyStrip line == str "***" || pyStrip line == str "---" || pyStrip line == [])) = true
      · rw [if_pos hsup] at hl
        by_cases hsep : (pyStrip line == str "***" || pyStrip line == str "---") = true
        · rw [if_pos hsep] at hl; exact ih false l hl
        · rw [if_neg hsep] at hl; exact ih true l hl
      · rw [if_neg hsup] at hl
        rcases List.mem_cons.mp hl with rfl | hl
        · exact hh'
        · exact ih false l hl

theorem cleanLoop_sublist (b : Bool) (ls : List (List Char)) :
    List.Sublist (cleanLoop b ls) ls := by
  induction ls generalizing b with
  | nil => simp [cleanLoop]
  | cons line rest ih =>
    rw [cleanLoop]
    by_cases hh : isHeaderLine line = true
    · rw [if_pos hh]
      exact List.Sublist.cons line (ih true)
    · rw [if_neg hh]
      by_cases hsup : (b &&
          (pyStrip line == str "***" || pyStrip line == str "---" || pyStrip line == [])) = true
      · rw [if_pos hsup]
        by_cases hsep : (pyStrip line == str "***" || pyStrip line == str "---") = true
        · rw [if_pos hsep]
          exact List.Sublist.cons line (ih false)
        · rw [if_neg hsep]
          exact List.Sublist.cons line (ih true)
      · rw [if_neg hsup]
        exact List.Sublist.cons₂ line (ih false)

theorem cleanLoop_keeps_plain (b : Bool) (ls : List (List Char)) (l : List Char)
    (hl : l ∈ ls) (hh : isHeaderLine l = false)
    (hb : (pyStrip l == []) = false)
    (hs1 : (pyStrip l == str "***") = false) (hs2 : (pyStrip l == str "---") = false) :
    l ∈ cleanLoop b ls := by
  induction ls generalizing b with
  | nil => simp at hl
  | cons line rest ih =>
    rw [cleanLoop]
    rcases List.mem_cons.mp hl with rfl | hmem
    · rw [if_neg (by simp [hh])]
      rw [if_neg (by simp [hb, hs1, hs2])]
      exact List.mem_cons_self l _
    · by_cases hhl : isHeaderLine line = true
      · rw [if_pos hhl]; exact ih true hmem
      · rw [if_neg hhl]
        by_cases hsup : (b &&
            (pyStrip line == str "***" || pyStrip line == str "---" || pyStrip line == [])) = true
        · rw [if_pos hsup]
          by_cases hsep : (pyStrip line == str "***" || pyStrip line == str "---") = true
          · rw [if_pos hsep]; exact ih false hmem
          · rw [if_neg hsep]; exact ih true hmem
        · rw [if_neg hsup]
          exact List.mem_cons_of_mem line (ih false hmem)

theorem cleanLoop_keep_all (ls : List (List Char))
    (h : ∀ l ∈ ls, isHeaderLine l = false) :
    cleanLoop false ls = ls := by
  induction ls with
  | nil => rfl
  | cons line rest ih =>
    rw [cleanLoop]
    rw [if_neg (by simp [h line (List.mem_cons_self line rest)])]
    rw [if_neg (by simp)]
    rw [ih (fun l hl => h l (List.mem_cons_of_mem line hl))]

theorem splitNL_ne_nil (s : List Char) : splitNL s ≠ [] := by
  cases s with
  | nil => simp [splitNL]
  | cons c rest =>
    rw [splitNL]
    by_cases hc : c = '\n'
    · simp [hc]
    · rw [if_neg hc]
      cases splitNL rest <;> simp

theorem joinNL_splitNL (s : List Char) : joinNL (splitNL s) = s := by
  induction s with
  | nil => rfl
  | cons c rest ih =>
    rw [splitNL]
    by_cases hc : c = '\n'
    · rw [if_pos hc]
      cases hs : splitNL rest with
      | nil => exact absurd hs (splitNL_ne_nil rest)
      | cons l ls =>
        rw [hs] at ih
        subst hc
        rw [joinNL, ih]
        simp
    · rw [if_neg hc]
      cases hs : splitNL rest with
      | nil => exact absurd hs (splitNL_ne_nil rest)
      | cons l ls =>
        rw [hs] at ih
        cases ls with
        | nil =>
          rw [joinNL]
          rw [joinNL] at ih
          rw [ih]
        | cons l2 ls2 =>
          rw [joinNL]
          rw [joinNL] at ih
          rw [List.cons_append, ih]

theorem splitNL_first_prefix (s : List Char) (l : List Char) (ls : List (List Char))
    (h : splitNL s = l :: ls) : ∃ w, s = l ++ w := by
  have hj := joinNL_splitNL s
  rw [h] at hj
  cases ls with
  | nil => exact ⟨[], by rw [← hj, joinNL, List.append_nil]⟩
  | cons l2 ls2 => exact ⟨'\n' :: joinNL (l2 :: ls2), by rw [← hj, joinNL]⟩

theorem splitNL_mem_decomp (s : List Char) (l : List Char) (hl : l ∈ splitNL s) :
    ∃ u w, s = u ++ l ++ w := by
  induction s with
  | nil =>
    simp only [splitNL, List.mem_singleton] at hl
    exact ⟨[], [], by simp [hl]⟩
  | cons c rest ih =>
    rw [splitNL] at hl
    by_cases hc : c = '\n'
    · rw [if_pos hc] at hl
      rcases List.mem_cons.mp hl with rfl | hmem
      · exact ⟨[], c :: rest, by simp⟩
      · obtain ⟨u, w, huw⟩ := ih hmem
        exact ⟨c :: u, w, by simp [huw]⟩
    · rw [if_neg hc] at hl
      cases hs : splitNL rest with
      | nil => exact absurd hs (splitNL_ne_nil rest)
      | cons m ms =>
        rw [hs] at hl
        rcases List.mem_cons.mp hl with rfl | hmem
        · obtain ⟨w, hw⟩ := splitNL_first_prefix rest m ms hs
          exact ⟨[], w, by simp [hw]⟩
        · have hmem' : l ∈ splitNL rest := by rw [hs]; exact List.mem_cons_of_mem m hmem
          obtain ⟨u, w, huw⟩ := ih hmem'
          exact ⟨c :: u, w, by simp [huw]⟩

theorem dropWhile_idem (p : Char → Bool) (l : List Char) :
    (l.dropWhile p).dropWhile p = l.dropWhile p := by
  induction l with
  | nil => rfl
  | cons c r ih =>
    by_cases hc : p c = true
    · simp [List.dropWhile_cons, hc, ih]
    · simp [List.dropWhile_cons, hc]

theorem dropWhile_length_le (p : Char → Bool) (l : List Char) :
    (l.dropWhile p).length ≤ l.length := by
  induction l with
  | nil => simp
  | cons c r ih =>
    by_cases hc : p c = true
    · rw [List.dropWhile_cons, if_pos hc]
      exact Nat.le_trans ih (by simp)
    · rw [List.dropWhile_cons, if_neg hc]

theorem dropWhile_decomp (x : List Char) :
    ∃ w, x.dropWhile pyIsSpace = pyStrip x ++ w := by
  refine ⟨((x.dropWhile pyIsSpace).reverse.takeWhile pyIsSpace).reverse, ?_⟩
  have h2 : (x.dropWhile pyIsSpace).reverse.takeWhile pyIsSpace ++
      (x.dropWhile pyIsSpace).reverse.dropWhile pyIsSpace =
      (x.dropWhile pyIsSpace).reverse :=
    List.takeWhile_append_dropWhile pyIsSpace (x.dropWhile pyIsSpace).reverse
  have h3 := congrArg List.reverse h2
  simp only [List.reverse_append, List.reverse_reverse] at h3
  exact h3.symm

theorem pyStrip_decomp (x : List Char) : ∃ u w, x = u ++ pyStrip x ++ w := by
  obtain ⟨w, hw⟩ := dropWhile_decomp x
  refine ⟨x.takeWhile pyIsSpace, w, ?_⟩
  rw [List.append_assoc, ← hw]
  exact (List.takeWhile_append_dropWhile pyIsSpace x).symm

theorem dropWhile_eq_self_of_cons (p : Char → Bool) (c : Char) (r : List Char)
    (h : (c :: r).dropWhile p = c :: r) : p c = false := by
  cases hc : p c
  · rfl
  · rw [List.dropWhile_cons, if_pos hc] at h
    have hlen := dropWhile_length_le p r
    rw [h] at hlen
    simp at hlen

theorem pyStrip_idem (x : List Char) : pyStrip (pyStrip x) = pyStrip x := by
  have hA : (x.dropWhile pyIsSpace).dropWhile pyIsSpace = x.dropWhile pyIsSpace :=
    dropWhile_idem pyIsSpace x
  have hD : ((x.dropWhile pyIsSpace).reverse.dropWhile pyIsSpace).dropWhile pyIsSpace =
      (x.dropWhile pyIsSpace).reverse.dropWhile pyIsSpace :=
    dropWhile_idem pyIsSpace (x.dropWhile pyIsSpace).reverse
  obtain ⟨w, hw⟩ := dropWhile_decomp x
  have hB : (pyStrip x).dropWhile pyIsSpace = pyStrip x := by
    cases hBs : pyStrip x with
    | nil => rfl
    | cons b B =>
      have hx : x.dropWhile pyIsSpace = b :: (B ++ w) := by
        rw [hw, hBs]; simp
      have hA' := hA
      rw [hx] at hA'
      have hbx := dropWhile_eq_self_of_cons pyIsSpace b _ hA'
      rw [List.dropWhile_cons, if_neg (by simp [hbx])]
  show (((pyStrip x).dropWhile pyIsSpace).reverse.dropWhile pyIsSpace).reverse = pyStrip x
  rw [hB]
  have hrev : (pyStrip x).reverse = (x.dropWhile pyIsSpace).reverse.dropWhile pyIsSpace := by
    simp [pyStrip]
  rw [hrev, hD]
  simp [pyStrip]

theorem pyLower_append (u v : List Char) :
    pyLower (u ++ v) = pyLower u ++ pyLower v := List.map_append Char.toLower u v

theorem pyLower_joinNL (ls : List (List Char)) :
    pyLower (joinNL ls) = joinNL (ls.map pyLower) := by
  induction ls with
  | nil => rfl
  | cons l rest ih =>
    cases rest with
    | nil => rfl
    | cons l2 ls2 =>
      rw [joinNL, List.map_cons, List.map_cons, joinNL]
      rw [pyLower_append]
      rw [List.map_cons] at ih
      have : pyLower ('\n' :: joinNL (l2 :: ls2)) = '\n' :: pyLower (joinNL (l2 :: ls2)) := by
        simp [pyLower]
      rw [this, ih]

theorem pyIn_newline_append (p x z : List Char)
    (hnl : p.all (fun c => c != '\n') = true)
    (h : pyIn p (x ++ '\n' :: z) = true) :
    pyIn p x = true ∨ pyIn p z = true := by
  induction x with
  | nil =>
    simp only [List.nil_append, pyIn, Bool.or_eq_true] at h
    rcases h with h | h
    · cases p with
      | nil => left; simp [pyIn, List.isPrefixOf]
      | cons q p' =>
        simp only [List.isPrefixOf, Bool.and_eq_true, beq_iff_eq] at h
        rw [h.1] at hnl
        simp at hnl
    · right; exact h
  | cons c x' ih =>
    simp only [List.cons_append, pyIn, Bool.or_eq_true] at h
    rcases h with h | h
    · have h' : p.isPrefixOf ((c :: x') ++ '\n' :: z) = true := h
      rcases isPrefixOf_append_cases p (c :: x') ('\n' :: z) h' with hx | hx
      · left
        simp [pyIn, hx]
      · obtain ⟨p2, hp2⟩ := (isPrefixOf_iff_exists _ _).mp hx
        cases p2 with
        | nil =>
          left
          have hself : (c :: x').isPrefixOf (c :: x') = true := by
            have := isPrefixOf_append_right (c :: x') []
            simpa using this
          rw [hp2, List.append_nil]
          simp [pyIn, hself]
        | cons d p2' =>
          have hcan : (d :: p2').isPrefixOf ('\n' :: z) = true := by
            have h2 := h'
            rw [hp2] at h2
            rwa [isPrefixOf_append_cancel] at h2
          have hd : d = '\n' := by
            simp only [List.isPrefixOf, Bool.and_eq_true, beq_iff_eq] at hcan
            exact hcan.1
          have hmem : '\n' ∈ p := by
            rw [hp2, hd]
            simp
          rw [List.all_eq_true] at hnl
          have := hnl '\n' hmem
          simp at this
    · exact (ih h).imp_left (fun hx => by simp [pyIn, hx])

theorem pyIn_joinNL (p : List Char) (ms : List (List Char))
    (hp : p ≠ []) (hnl : p.all (fun c => c != '\n') = true)
    (h : pyIn p (joinNL ms) = true) : ∃ m ∈ ms, pyIn p m = true := by
  induction ms with
  | nil =>
    rw [joinNL] at h
    cases p with
    | nil => exact absurd rfl hp
    | cons q p' => simp [pyIn, List.isPrefixOf] at h
  | cons m rest ih =>
    cases rest with
    | nil =>
      rw [joinNL] at h
      exact ⟨m, List.mem_cons_self m [], h⟩
    | cons m2 ms2 =>
      rw [joinNL] at h
      rcases pyIn_newline_append p m (joinNL (m2 :: ms2)) hnl h with hx | hx
      · exact ⟨m, List.mem_cons_self m _, hx⟩
      · obtain ⟨m', hm', hpm'⟩ := ih hx
        exact ⟨m', List.mem_cons_of_mem m hm', hpm'⟩

theorem storyClean_no_phrase (s : List Char) (p : List Char) (hp : p ≠ [])
    (hnl : p.all (fun c => c != '\n') = true)
    (h : ∀ l ∈ cleanLoop false (splitNL s), pyIn p (pyLower l) = false) :
    pyIn p (pyLower (storyClean s)) = false := by
  cases hb : pyIn p (pyLower (storyClean s)) with
  | false => rfl
  | true =>
    exfalso
    obtain ⟨u, w, huw⟩ := pyStrip_decomp (joinNL (cleanLoop false (splitNL s)))
    have hext : pyIn p (pyLower (joinNL (cleanLoop false (splitNL s)))) = true := by
      have : pyLower (joinNL (cleanLoop false (splitNL s))) =
          pyLower u ++ pyLower (storyClean s) ++ pyLower w := by
        conv_lhs => rw [huw]
        simp only [pyLower_append]
        rfl
      rw [this]
      exact pyIn_extend p _ (pyLower u) (pyLower w) hb
    rw [pyLower_joinNL] at hext
    obtain ⟨lm, hlm, hplm⟩ := pyIn_joinNL p _ hp hnl hext
    obtain ⟨l, hl, rfl⟩ := List.mem_map.mp hlm
    rw [h l hl] at hplm
    exact Bool.false_ne_true hplm

theorem storyClean_lines_no_header (s : List Char) :
    ∀ l ∈ splitNL (storyClean s), isHeaderLine l = false := by
  intro l hl
  have hkept : ∀ l' ∈ cleanLoop false (splitNL s), pyIn (str "linguagem detectada") (pyLower l') = false ∧
      pyIn (str "detected language") (pyLower l') = false := by
    intro l' hl'
    have := cleanLoop_no_header false (splitNL s) l' hl'
    simp only [isHeaderLine, Bool.or_eq_false_iff] at this
    exact this
  have h1 : pyIn (str "linguagem detectada") (pyLower (storyClean s)) = false :=
    storyClean_no_phrase s _ (by decide) (by decide) (fun l' hl' => (hkept l' hl').1)
  have h2 : pyIn (str "detected language") (pyLower (storyClean s)) = false :=
    storyClean_no_phrase s _ (by decide) (by decide) (fun l' hl' => (hkept l' hl').2)
  obtain ⟨u, w, huw⟩ := splitNL_mem_decomp (storyClean s) l hl
  have hlow : pyLower (storyClean s) = pyLower u ++ pyLower l ++ pyLower w := by
    conv_lhs => rw [huw]
    simp [pyLower_append]
  rw [isHeaderLine]
  have e1 : pyIn (str "linguagem detectada") (pyLower l) = false := by
    cases hc : pyIn (str "linguagem detectada") (pyLower l) with
    | false => rfl
    | true =>
      have := pyIn_extend _ _ (pyLower u) (pyLower w) hc
      rw [← hlow] at this
      rw [this] at h1
      exact absurd h1 (by simp)
  have e2 : pyIn (str "detected language") (pyLower l) = false := by
    cases hc : pyIn (str "detected language") (pyLower l) with
    | false => rfl
    | true =>
      have := pyIn_extend _ _ (pyLower u) (pyLower w) hc
      rw [← hlow] at this
      rw [this] at h2
      exact absurd h2 (by simp)
  rw [e1, e2]
  rfl

theorem storyClean_idem (s : List Char) : storyClean (storyClean s) = storyClean s := by
  show pyStrip (joinNL (cleanLoop false (splitNL (storyClean s)))) = storyClean s
  rw [cleanLoop_keep_all _ (storyClean_lines_no_header s)]
  rw [joinNL_splitNL]
  show pyStrip (pyStrip (joinNL (cleanLoop false (splitNL s)))) = storyClean s
  rw [pyStrip_idem]
  rfl

theorem ciPrefixOf_eq (lbl l : List Char) :
    ciPrefixOf lbl l = lbl.isPrefixOf (pyLower l) := by
  induction lbl generalizing l with
  | nil => cases l <;> simp [ciPrefixOf, pyLower, List.isPrefixOf]
  | cons a la ih =>
    cases l with
    | nil => simp [ciPrefixOf, pyLower, List.isPrefixOf]
    | cons c lc =>
      simp only [ciPrefixOf, pyLower, List.map_cons, List.isPrefixOf]
      rw [ih lc]
      rfl

theorem reCapture_none (lbl t : List Char) (h : pyIn lbl (pyLower t) = false) :
    reCapture lbl t = none := by
  induction t with
  | nil => rfl
  | cons c r ih =>
    have hsplit : lbl.isPrefixOf (pyLower (c :: r)) = false ∧ pyIn lbl (pyLower r) = false := by
      have : pyIn lbl (pyLower (c :: r)) =
          (lbl.isPrefixOf (pyLower (c :: r)) || pyIn lbl (pyLower r)) := by
        simp [pyLower, pyIn]
      rw [this] at h
      exact ⟨by cases hx : lbl.isPrefixOf (pyLower (c :: r)) <;> simp_all,
        by cases hx : pyIn lbl (pyLower r) <;> simp_all⟩
    rw [reCapture]
    rw [if_neg (by rw [ciPrefixOf_eq, hsplit.1]; simp)]
    exact ih hsplit.2

theorem mem_of_mem_takeWhileP (p : Char → Bool) (l : List Char) (c : Char)
    (h : c ∈ l.takeWhile p) : c ∈ l := by
  induction l with
  | nil => simp [List.takeWhile] at h
  | cons d r ih =>
    rw [List.takeWhile_cons] at h
    by_cases hd : p d = true
    · rw [if_pos hd] at h
      rcases List.mem_cons.mp h with rfl | h
      · exact List.mem_cons_self c r
      · exact List.mem_cons_of_mem d (ih h)
    · rw [if_neg hd] at h
      simp at h

theorem mem_of_mem_dropWhileP (p : Char → Bool) (l : List Char) (c : Char)
    (h : c ∈ l.dropWhile p) : c ∈ l := by
  induction l with
  | nil => simp [List.dropWhile] at h
  | cons d r ih =>
    rw [List.dropWhile_cons] at h
    by_cases hd : p d = true
    · rw [if_pos hd] at h
      exact List.mem_cons_of_mem d (ih h)
    · rw [if_neg hd] at h
      exact h

theorem pyStrip_subset (l : List Char) (c : Char) (h : c ∈ pyStrip l) : c ∈ l := by
  simp only [pyStrip, List.mem_reverse] at h
  have h1 := mem_of_mem_dropWhileP pyIsSpace (l.dropWhile pyIsSpace).reverse c h
  rw [List.mem_reverse] at h1
  exact mem_of_mem_dropWhileP pyIsSpace l c h1

theorem wsCapture_subset (l cap : List Char) (h : wsCapture l = some cap) :
    ∀ c ∈ cap, c ∈ l := by
  induction l with
  | nil => simp [wsCapture] at h
  | cons d r ih =>
    rw [wsCapture] at h
    by_cases hd : pyIsSpace d = true
    · rw [if_pos hd] at h
      cases hr : wsCapture r with
      | some cap2 =>
        rw [hr] at h
        cases h
        intro c hc
        exact List.mem_cons_of_mem d (ih hr c hc)
      | none =>
        rw [hr] at h
        by_cases hdn : d = '\n'
        · rw [if_pos hdn] at h; cases h
        · rw [if_neg hdn] at h
          cases h
          intro c hc
          exact mem_of_mem_takeWhileP _ _ c hc
    · rw [if_neg hd] at h
      cases h
      intro c hc
      exact mem_of_mem_takeWhileP _ _ c hc

theorem reCapture_subset (lbl t cap : List Char) (h : reCapture lbl t = some cap) :
    ∀ c ∈ cap, c ∈ t := by
  induction t with
  | nil => simp [reCapture] at h
  | cons d r ih =>
    rw [reCapture] at h
    by_cases hd : ciPrefixOf lbl (d :: r) = true
    · rw [if_pos hd] at h
      cases hw : wsCapture (List.drop lbl.length (d :: r)) with
      | some cap2 =>
        rw [hw] at h
        cases h
        intro c hc
        have := wsCapture_subset _ _ hw c hc
        exact List.mem_of_mem_drop this
      | none =>
        rw [hw] at h
        intro c hc
        exact List.mem_cons_of_mem d (ih h c hc)
    · rw [if_neg hd] at h
      intro c hc
      exact List.mem_cons_of_mem d (ih h c hc)

theorem replaceList_star_free (u : List Char) :
    ∀ c ∈ replaceList (str "*") [] u, c ≠ '*' := by
  induction u with
  | nil =>
    rw [replaceList_nil]
    simp
  | cons d r ih =>
    show ∀ c ∈ replaceList ('*' :: []) [] (d :: r), c ≠ '*'
    rw [replaceList]
    by_cases hd : d = '*'
    · rw [if_pos (by simp [List.isPrefixOf, hd])]
      simpa using ih
    · rw [if_neg (by simp [List.isPrefixOf]; intro hc; exact absurd hc.symm hd)]
      intro c hc
      rcases List.mem_cons.mp hc with rfl | hc
      · exact hd
      · exact ih c hc

theorem stripMarkdown_star_free (t : List Char) :
    ∀ c ∈ stripMarkdown t, c ≠ '*' :=
  replaceList_star_free (replaceList (str "**") [] t)

theorem stripMarkdown_id (t : List Char) (h : ∀ c ∈ t, c ≠ '*') :
    stripMarkdown t = t := by
  have h2 : replaceList (str "**") [] t = t := by
    show replaceList ('*' :: '*' :: []) [] t = t
    exact replaceList_id_of_no_head '*' _ [] t h
  rw [stripMarkdown, h2]
  show replaceList ('*' :: []) [] t = t
  exact replaceList_id_of_no_head '*' _ [] t h

theorem pyStrip_dropWhile (v : List Char) :
    pyStrip (v.dropWhile pyIsSpace) = pyStrip v := by
  simp [pyStrip, dropWhile_idem]

theorem wsCapture_line (v rest : List Char)
    (hnl : v.all (fun c => c != '\n') = true)
    (hns : v.any (fun c => !(pyIsSpace c)) = true) :
    wsCapture (v ++ '\n' :: rest) = some (v.dropWhile pyIsSpace) := by
  induction v with
  | nil => simp at hns
  | cons c v' ih =>
    rw [List.cons_append, wsCapture]
    simp only [List.all_cons, Bool.and_eq_true, bne_iff_ne, ne_eq] at hnl
    by_cases hc : pyIsSpace c = true
    · rw [if_pos hc]
      have hns' : v'.any (fun c => !(pyIsSpace c)) = true := by
        simp only [List.any_cons, Bool.or_eq_true] at hns
        rcases hns with hx | hx
        · rw [hc] at hx; simp at hx
        · exact hx
      rw [ih hnl.2 hns']
      rw [List.dropWhile_cons, if_pos hc]
    · rw [if_neg hc]
      rw [List.dropWhile_cons, if_neg hc]
      congr 1
      have : ∀ w, w.all (fun x => x != '\n') = true →
          (w ++ '\n' :: rest).takeWhile (fun x => x != '\n') = w := by
        intro w hw
        induction w with
        | nil => simp [List.takeWhile_cons]
        | cons d w' ihw =>
          simp only [List.all_cons, Bool.and_eq_true] at hw
          rw [List.cons_append, List.takeWhile_cons, if_pos hw.1, ihw hw.2]
      exact this (c :: v') (by simp only [List.all_cons, Bool.and_eq_true]; exact ⟨by simpa using hnl.1, hnl.2⟩)

theorem ciPrefixOf_self_lower (lbl u : List Char) (h : pyLower u = lbl) (m : List Char) :
    ciPrefixOf lbl (u ++ m) = true := by
  rw [ciPrefixOf_eq, pyLower_append, h]
  exact isPrefixOf_append_right lbl (pyLower m)

theorem reCapture_at_head (lbl u x cap : List Char) (hu : u ≠ [])
    (hlen : u.length = lbl.length) (hci : ciPrefixOf lbl (u ++ x) = true)
    (hcap : wsCapture x = some cap) :
    reCapture lbl (u ++ x) = some cap := by
  cases u with
  | nil => exact absurd rfl hu
  | cons c u' =>
    rw [List.cons_append, reCapture]
    rw [if_pos (by rw [← List.cons_append]; exact hci)]
    have hdrop : List.drop lbl.length (c :: (u' ++ x)) = x := by
      rw [← hlen, ← List.cons_append]
      simp
    rw [hdrop, hcap]

theorem replaceList_self (a val : List Char) (ha : a ≠ []) :
    replaceList a val a = val := by
  cases a with
  | nil => exact absurd rfl ha
  | cons p ps =>
    have h := replaceList_match_head p ps val []
    simp only [List.append_nil, replaceList_nil] at h
    exact h

theorem replaceList_absent (a val t : List Char) (ha : a ≠ [])
    (hcross : crossFreeB a t = true) : replaceList a val t = t := by
  cases a with
  | nil => exact absurd rfl ha
  | cons p ps =>
    have h := replaceList_skip_token p ps val t []
      (fun q hq => crossFreeB_spec (p :: ps) t hcross q hq)
    simp only [List.append_nil, replaceList_nil] at h
    exact h

theorem fieldOf_star_free (lbl t : List Char) (ht : ∀ c ∈ t, c ≠ '*') :
    (fieldOf lbl t).all (fun c => c != '*') = true := by
  rw [fieldOf]
  cases hr : reCapture lbl t with
  | none => rfl
  | some cap =>
    rw [List.all_eq_true]
    intro c hc
    have h1 := pyStrip_subset cap c hc
    have h2 := reCapture_subset lbl t cap hr c h1
    simpa using ht c h2

theorem orchestrator_key_none (word source_lang definition_lang : List Char)
    (model : Option (List Char)) (ptc : List Char) (net : GenRequest → HttpOutcome)
    (tts : TtsRequest → Option (List Nat)) (wr : Bool) (now : Nat) :
    _generate_content_and_audio word source_lang definition_lang none model ptc
      net tts wr now = (Except.ok (GenOutcome.failure CONFIG_ERROR_MSG), []) := rfl

theorem orchestrator_key_empty (word source_lang definition_lang : List Char)
    (model : Option (List Char)) (ptc : List Char) (net : GenRequest → HttpOutcome)
    (tts : TtsRequest → Option (List Nat)) (wr : Bool) (now : Nat) :
    _generate_content_and_audio word source_lang definition_lang (some []) model ptc
      net tts wr now = (Except.ok (GenOutcome.failure CONFIG_ERROR_MSG), []) := rfl

theorem generate_content_ws_key (key : List Char) (hsp : key.all pyIsSpace = true)
    (word source_lang model definition_lang : List Char)
    (tmpl : Option (List Char)) (net : GenRequest → HttpOutcome) :
    generate_content word source_lang key model definition_lang tmpl net =
      (Except.error VALUE_ERROR_EMPTY_KEY, []) := by
  have hstrip : pyStrip key = [] := by
    have hdw : key.dropWhile pyIsSpace = [] := by
      rw [List.dropWhile_eq_nil_iff]
      intro a ha
      rw [List.all_eq_true] at hsp
      exact hsp a ha
    simp [pyStrip, hdw]
  rw [generate_content, if_pos (by rw [hstrip]; simp)]

theorem orchestrator_key_ws (key : List Char) (hsp : key.all pyIsSpace = true)
    (hne : key ≠ []) (word source_lang definition_lang : List Char)
    (model : Option (List Char)) (ptc : List Char) (net : GenRequest → HttpOutcome)
    (tts : TtsRequest → Option (List Nat)) (wr : Bool) (now : Nat) :
    _generate_content_and_audio word source_lang definition_lang (some key) model ptc
      net tts wr now = (Except.error VALUE_ERROR_EMPTY_KEY, []) := by
  have hkeF : (key == []) = false := by
    rw [beq_eq_false_iff_ne]
    exact hne
  have hyk : pyIn (str "YOUR_KEY") key = false := by
    cases hc : pyIn (str "YOUR_KEY") key with
    | false => rfl
    | true =>
      have hY : 'Y' ∈ key := mem_of_pyIn (str "YOUR_KEY") key 'Y' (by decide) hc
      rw [List.all_eq_true] at hsp
      exact absurd (hsp 'Y' hY) (by decide)
  rw [_generate_content_and_audio]
  rw [if_neg (by rw [hkeF, hyk]; simp)]
  simp only [generate_content_ws_key key hsp]

theorem background_op_key_ws (key : List Char) (hsp : key.all pyIsSpace = true)
    (hne : key ≠ []) (word source_lang definition_lang : List Char)
    (model : Option (List Char)) (ptc : List Char) (net : GenRequest → HttpOutcome)
    (tts : TtsRequest → Option (List Nat)) (wr : Bool) (now : Nat) :
    background_op word source_lang definition_lang (some key) model ptc
      net tts wr now = GenOutcome.failure VALUE_ERROR_EMPTY_KEY := by
  rw [background_op]
  rw [orchestrator_key_ws key hsp hne]

/-! # Claim theorems -/

/-- C1, counterexample: `download_audio` called with the empty string as
`text` does not return failure with no request issued — with a succeeding
network and file write it returns `True`, and exactly one HTTP request is
issued. -/
theorem c1_empty_text_counterexample :
    (download_audio (str "") (str "English") (fun _ => some []) true).1 = true ∧
    (download_audio (str "") (str "English") (fun _ => some []) true).2.length = 1 := by
  constructor <;> rfl

/-- C1 (amended): `download_audio` performs no validation of `text`: for
every text — empty or whitespace-only included — it issues exactly one HTTP
request (carrying the text and the resolved language code), and it returns
`True` exactly when both the request and the file write succeed. -/
theorem c1_download_audio_always_requests (text language_name : List Char)
    (net : TtsRequest → Option (List Nat)) (writeOk : Bool) :
    (download_audio text language_name net writeOk).2 =
      [⟨text, get_lang_code language_name⟩] ∧
    (download_audio text language_name net writeOk).1 =
      ((net ⟨text, get_lang_code language_name⟩).isSome && writeOk) := by
  cases hn : net ⟨text, get_lang_code language_name⟩ <;> cases writeOk <;>
    simp [download_audio, hn]

/-- C2, counterexample: with a whitespace-only (non-empty) `api_key` the
orchestrator `_generate_content_and_audio` does not return a
configuration-error outcome — the `ValueError` raised by `generate_content`
escapes it (modelled as `Except.error`). -/
theorem c2_whitespace_key_counterexample :
    (_generate_content_and_audio (str "word") (str "English") (str "English")
        (some (str " ")) none [] (fun _ => HttpOutcome.otherError [])
        (fun _ => none) true 0).1 = Except.error VALUE_ERROR_EMPTY_KEY := by
  rfl

/-- C2 (amended): with a missing or empty `api_key` the orchestrator fails
fast, returning the configuration-error outcome with no request issued; but
with a whitespace-only non-empty key the placeholder check passes and
`generate_content` raises `ValueError`, which escapes
`_generate_content_and_audio`; only the `background_op` wrapper converts it
into an error outcome, so no exception passes the outermost boundary. -/
theorem c2_orchestrator_key_validation :
    (∀ (word source_lang definition_lang : List Char) (model : Option (List Char))
      (ptc : List Char) (net : GenRequest → HttpOutcome)
      (tts : TtsRequest → Option (List Nat)) (wr : Bool) (now : Nat),
      _generate_content_and_audio word source_lang definition_lang none model ptc
        net tts wr now = (Except.ok (GenOutcome.failure CONFIG_ERROR_MSG), [])) ∧
    (∀ (word source_lang definition_lang : List Char) (model : Option (List Char))
      (ptc : List Char) (net : GenRequest → HttpOutcome)
      (tts : TtsRequest → Option (List Nat)) (wr : Bool) (now : Nat),
      _generate_content_and_audio word source_lang definition_lang (some []) model ptc
        net tts wr now = (Except.ok (GenOutcome.failure CONFIG_ERROR_MSG), [])) ∧
    (∀ key, key.all pyIsSpace = true → key ≠ [] →
      ∀ (word source_lang definition_lang : List Char) (model : Option (List Char))
        (ptc : List Char) (net : GenRequest → HttpOutcome)
        (tts : TtsRequest → Option (List Nat)) (wr : Bool) (now : Nat),
        _generate_content_and_audio word source_lang definition_lang (some key) model ptc
          net tts wr now = (Except.error VALUE_ERROR_EMPTY_KEY, [])) ∧
    (∀ key, key.all pyIsSpace = true → key ≠ [] →
      ∀ (word source_lang definition_lang : List Char) (model : Option (List Char))
        (ptc : List Char) (net : GenRequest → HttpOutcome)
        (tts : TtsRequest → Option (List Nat)) (wr : Bool) (now : Nat),
        background_op word source_lang definition_lang (some key) model ptc
          net tts wr now = GenOutcome.failure VALUE_ERROR_EMPTY_KEY) :=
  ⟨orchestrator_key_none, orchestrator_key_empty,
    fun key hsp hne => orchestrator_key_ws key hsp hne,
    fun key hsp hne => background_op_key_ws key hsp hne⟩

/-- C2, witness: the amended claim at the concrete whitespace-only key
`" "`. -/
theorem c2_orchestrator_key_validation_witness :
    background_op (str "word") (str "English") (str "English") (some (str " "))
      none [] (fun _ => HttpOutcome.otherError []) (fun _ => none) true 0 =
      GenOutcome.failure VALUE_ERROR_EMPTY_KEY :=
  c2_orchestrator_key_validation.2.2.2 (str " ") (by decide) (by decide)
    (str "word") (str "English") (str "English") none []
    (fun _ => HttpOutcome.otherError []) (fun _ => none) true 0

/-- C3: at a 200 response whose JSON body lacks the candidates path (body
`\x7b\x7d`), `generate_story_with_words` does not return the detailed
key-enumerating diagnostic the spec describes: the handler that builds it
dereferences the never-imported name `os` (src/ai_client.py line 487), so
the call returns the generic message carrying the `NameError` text, which
does not mention the response keys at all. -/
theorem c3_story_missing_path_name_error :
    (generate_story_with_words [str "word"] (str "key") (str "gemini-pro")
        (str "English") (str "B1") (str "short") none
        (fun _ => HttpOutcome.success ⟨none⟩)).1 = STORY_NAME_ERROR_MSG ∧
    pyIn (str "API Response Keys") STORY_NAME_ERROR_MSG = false := by
  constructor
  · rfl
  · decide

/-- C4, counterexample: in `"x BASE_FORM: run"` no line begins
(case-insensitively) with `BASE_FORM:`, so per the claim the base form
should be the empty string; `parse_response` nevertheless finds the
mid-line label and returns `"run"`. -/
theorem c4_midline_label_counterexample :
    (parse_response (str "x BASE_FORM: run")).2.2 = str "run" ∧
    (splitNL (str "x BASE_FORM: run")).all
      (fun l => !(ciPrefixOf (str "base_form:") l)) = true := by
  constructor
  · show fieldOf (str "base_form:") (stripMarkdown (str "x BASE_FORM: run")) = str "run"
    rw [stripMarkdown_id _ (by decide)]
    decide
  · decide

/-- C4 (amended): `parse_response` locates each label case-insensitively at
the first position anywhere in the (markdown-stripped) text — not only at
line beginnings; an absent label yields the empty string for its field,
never an error; when a label heads the text and is followed on its line by a
payload with a non-whitespace character, the field is that payload trimmed
(the regex skips whitespace after the label, and that whitespace may cross
line breaks); the labels may come in any order with intervening lines. -/
theorem c4_parse_response_amended :
    (∀ text, pyIn (str "base_form:") (pyLower (stripMarkdown text)) = false →
      (parse_response text).2.2 = []) ∧
    (∀ text, pyIn (str "definition:") (pyLower (stripMarkdown text)) = false →
      (parse_response text).1 = []) ∧
    (∀ text, pyIn (str "example:") (pyLower (stripMarkdown text)) = false →
      (parse_response text).2.1 = []) ∧
    (∀ v rest, v.all (fun c => c != '\n') = true →
      v.any (fun c => !(pyIsSpace c)) = true →
      (str "BASE_FORM:" ++ (v ++ '\n' :: rest)).all (fun c => c != '*') = true →
      (parse_response (str "BASE_FORM:" ++ (v ++ '\n' :: rest))).2.2 = pyStrip v) ∧
    parse_response (str "x BASE_FORM: run") = ([], [], str "run") ∧
    parse_response (str "EXAMPLE: e1\nmid\nbase_form: b1\nDEFINITION: d1") =
      (str "d1", str "e1", str "b1") := by
  refine ⟨?_, ?_, ?_, ?_, ?_, ?_⟩
  · intro text h
    show fieldOf (str "base_form:") (stripMarkdown text) = []
    rw [fieldOf, reCapture_none _ _ h]
  · intro text h
    show fieldOf (str "definition:") (stripMarkdown text) = []
    rw [fieldOf, reCapture_none _ _ h]
  · intro text h
    show fieldOf (str "example:") (stripMarkdown text) = []
    rw [fieldOf, reCapture_none _ _ h]
  · intro v rest hnl hns hstar
    have hsm : stripMarkdown (str "BASE_FORM:" ++ (v ++ '\n' :: rest)) =
        str "BASE_FORM:" ++ (v ++ '\n' :: rest) := by
      apply stripMarkdown_id
      rw [List.all_eq_true] at hstar
      intro c hc
      simpa using hstar c hc
    show fieldOf (str "base_form:")
        (stripMarkdown (str "BASE_FORM:" ++ (v ++ '\n' :: rest))) = pyStrip v
    rw [hsm, fieldOf]
    rw [reCapture_at_head (str "base_form:") (str "BASE_FORM:") (v ++ '\n' :: rest)
      (v.dropWhile pyIsSpace) (by decide) (by decide)
      (ciPrefixOf_self_lower _ _ (by decide) _)
      (wsCapture_line v rest hnl hns)]
    exact pyStrip_dropWhile v
  · simp only [parse_response]
    rw [stripMarkdown_id _ (by decide)]
    decide
  · simp only [parse_response]
    rw [stripMarkdown_id _ (by decide)]
    decide

/-- C4, witness: the amended capture clause at the concrete payload
`" run"`. -/
theorem c4_parse_response_amended_witness :
    (parse_response (str "BASE_FORM:" ++ (str " run" ++ '\n' :: []))).2.2 =
      pyStrip (str " run") :=
  c4_parse_response_amended.2.2.2.1 (str " run") [] (by decide) (by decide) (by decide)

/-- C5: with exactly two note fields, `get_field_mapping` maps to the first
and second field, ignoring configuration; otherwise it returns the
configured triple with defaults `Front`/`Back`/`Back` for missing
entries. -/
theorem c5_get_field_mapping_spec :
    (∀ (a b : List Char) (fm : Option FieldMappingCfg),
      get_field_mapping [a, b] fm = (a, b, b)) ∧
    (∀ (fields : List (List Char)) (fm : Option FieldMappingCfg),
      fields.length ≠ 2 →
      get_field_mapping fields fm =
        ((fm.getD ⟨none, none, none⟩).word_field.getD (str "Front"),
         (fm.getD ⟨none, none, none⟩).definition_field.getD (str "Back"),
         (fm.getD ⟨none, none, none⟩).example_field.getD (str "Back"))) := by
  constructor
  · intro a b fm
    rfl
  · intro fields fm h
    match fields with
    | [] => rfl
    | [a] => rfl
    | [a, b] => exact absurd rfl h
    | a :: b :: c :: rest => rfl

/-- C5, witness: a two-field note ignores the configuration; a three-field
note with no configuration falls back to the defaults. -/
theorem c5_get_field_mapping_witness :
    get_field_mapping [str "Front", str "Vocab"]
      (some ⟨some (str "X"), some (str "Y"), some (str "Z")⟩) =
      (str "Front", str "Vocab", str "Vocab") ∧
    get_field_mapping [str "A", str "B", str "C"] none =
      (str "Front", str "Back", str "Back") :=
  ⟨c5_get_field_mapping_spec.1 (str "Front") (str "Vocab")
      (some ⟨some (str "X"), some (str "Y"), some (str "Z")⟩),
    c5_get_field_mapping_spec.2 [str "A", str "B", str "C"] none (by decide)⟩

/-- C6, counterexample: substitution order can matter — when the value
substituted for one token itself contains another token, the two orders
produce different outputs (template `TOK_WORD`, word value
`TOK_SOURCE_LANG`, source-language value `"X"`). -/
theorem c6_replace_order_counterexample :
    ((replaceList TOK_SOURCE_LANG (str "X")
        (replaceList TOK_WORD TOK_SOURCE_LANG TOK_WORD)) ==
      (replaceList TOK_WORD TOK_SOURCE_LANG
        (replaceList TOK_SOURCE_LANG (str "X") TOK_WORD))) = false ∧
    replaceList TOK_SOURCE_LANG (str "X")
      (replaceList TOK_WORD TOK_SOURCE_LANG TOK_WORD) = str "X" := by
  have e1 : replaceList TOK_WORD TOK_SOURCE_LANG TOK_WORD = TOK_SOURCE_LANG :=
    replaceList_self TOK_WORD TOK_SOURCE_LANG (by decide)
  have e2 : replaceList TOK_SOURCE_LANG (str "X") TOK_SOURCE_LANG = str "X" :=
    replaceList_self TOK_SOURCE_LANG (str "X") (by decide)
  have e3 : replaceList TOK_SOURCE_LANG (str "X") TOK_WORD = TOK_WORD :=
    replaceList_absent TOK_SOURCE_LANG (str "X") TOK_WORD (by decide) (by decide)
  rw [e1, e2, e3, e1]
  exact ⟨by decide, rfl⟩

/-- C6 (amended): for templates built from brace-free literal segments and
whole placeholder tokens (of either the word-analysis or the story token
set), and brace-free replacement values, literal find-and-replace of two
distinct tokens commutes — so rendering is order-independent on such
templates and values. -/
theorem c6_replace_order_independent :
    ∀ toks, (toks = WORD_TOKENS ∨ toks = STORY_TOKENS) →
    ∀ a b, a ∈ toks → b ∈ toks → a ≠ b →
    ∀ va vb, braceFree va = true → braceFree vb = true →
    ∀ S : List Seg, (∀ s ∈ S, segWf toks s = true) →
      replaceList b vb (replaceList a va (flatSegs S)) =
        replaceList a va (replaceList b vb (flatSegs S)) := by
  intro toks htk a b ha hb hab va vb hva hvb S hS
  have htoks : tokSetOk toks = true := by
    rcases htk with rfl | rfl <;> decide
  have hSa : ∀ s ∈ S.map (substSeg a va), segWf toks s = true := by
    intro s hs
    obtain ⟨s0, hs0, rfl⟩ := List.mem_map.mp hs
    exact substSeg_preserves_wf toks a va hva s0 (hS s0 hs0)
  have hSb : ∀ s ∈ S.map (substSeg b vb), segWf toks s = true := by
    intro s hs
    obtain ⟨s0, hs0, rfl⟩ := List.mem_map.mp hs
    exact substSeg_preserves_wf toks b vb hvb s0 (hS s0 hs0)
  rw [replaceList_flatSegs toks a va htoks ha S hS]
  rw [replaceList_flatSegs toks b vb htoks hb _ hSa]
  rw [replaceList_flatSegs toks b vb htoks hb S hS]
  rw [replaceList_flatSegs toks a va htoks ha _ hSb]
  rw [List.map_map, List.map_map]
  have hcomm : ∀ T : List Seg,
      List.map (substSeg b vb ∘ substSeg a va) T =
        List.map (substSeg a va ∘ substSeg b vb) T := by
    intro T
    induction T with
    | nil => rfl
    | cons s r ihr =>
      simp only [List.map_cons, Function.comp_apply, ihr]
      rw [substSeg_comm a va b vb hab s]
  rw [hcomm S]

/-- C6, witness: the amended claim at a concrete template
`w=\x7b\x7bword\x7d\x7d, s=\x7b\x7bsource_lang\x7d\x7d` with values
`gato`/`Spanish`. -/
theorem c6_replace_order_witness :
    replaceList TOK_SOURCE_LANG (str "Spanish")
        (replaceList TOK_WORD (str "gato")
          (flatSegs [Seg.lit (str "w="), Seg.tok TOK_WORD, Seg.lit (str ", s="),
            Seg.tok TOK_SOURCE_LANG])) =
      replaceList TOK_WORD (str "gato")
        (replaceList TOK_SOURCE_LANG (str "Spanish")
          (flatSegs [Seg.lit (str "w="), Seg.tok TOK_WORD, Seg.lit (str ", s="),
            Seg.tok TOK_SOURCE_LANG])) :=
  c6_replace_order_independent WORD_TOKENS (Or.inl rfl) TOK_WORD TOK_SOURCE_LANG
    (by decide) (by decide) (by decide) (str "gato") (str "Spanish")
    (by decide) (by decide)
    [Seg.lit (str "w="), Seg.tok TOK_WORD, Seg.lit (str ", s="),
      Seg.tok TOK_SOURCE_LANG] (by decide)

/-- C7, counterexample: the single line `" hello"` matches none of the
cleaner's patterns (it is no detected-language header, not blank, not a bare
separator), yet the output is not that line unchanged — the final
whole-string strip trims its leading space. -/
theorem c7_trailing_strip_counterexample :
    storyClean (str " hello") = str "hello" ∧
    isHeaderLine (str " hello") = false ∧
    (pyStrip (str " hello") == []) = false ∧
    (pyStrip (str " hello") == str "***") = false ∧
    (pyStrip (str " hello") == str "---") = false ∧
    (str "hello" == str " hello") = false := by
  refine ⟨by decide, by decide, by decide, by decide, by decide, by decide⟩

/-- C7 (amended): the line-filtering pass drops every detected-language
line (the kept lines are a subsequence of the input lines, kept verbatim,
and a line matching none of the patterns is never dropped); the suppression
after a header consumes blank lines, stops after consuming one bare
`***`/`---` separator, and stops at the first other line; the example input
cleans as specified.  The only other change is the final whole-output
whitespace trim, which can trim the first and last kept lines. -/
theorem c7_story_cleaner_behaviour :
    (∀ b ls l, l ∈ cleanLoop b ls → isHeaderLine l = false) ∧
    (∀ b ls, List.Sublist (cleanLoop b ls) ls) ∧
    (∀ b ls l, l ∈ ls → isHeaderLine l = false → (pyStrip l == []) = false →
      (pyStrip l == str "***") = false → (pyStrip l == str "---") = false →
      l ∈ cleanLoop b ls) ∧
    storyClean (str "Detected language: Spanish\n***\nOnce upon a time...") =
      str "Once upon a time..." ∧
    storyClean (str "Detected language: X\n***\n***\ntext") = str "***\ntext" ∧
    storyClean (str "detected language\n\n\n---\nhello") = str "hello" ∧
    storyClean (str "Detected language: X\nhello\n***") = str "hello\n***" :=
  ⟨cleanLoop_no_header, cleanLoop_sublist,
    fun b ls l h1 h2 h3 h4 h5 => cleanLoop_keeps_plain b ls l h1 h2 h3 h4 h5,
    by decide, by decide, by decide, by decide⟩

/-- C7, witness: a plain line is kept even while suppression is active. -/
theorem c7_story_cleaner_witness :
    (str "body") ∈ cleanLoop true [str "body"] :=
  c7_story_cleaner_behaviour.2.2.1 true [str "body"] (str "body")
    (by decide) (by decide) (by decide) (by decide) (by decide)

/-- C8: the story cleaner is idempotent — cleaning already-cleaned text
changes nothing. -/
theorem c8_storyClean_idempotent (s : List Char) :
    storyClean (storyClean s) = storyClean s := storyClean_idem s

/-- C9: with an empty word list, `generate_story_with_words` returns the
fixed no-words message and issues no HTTP request. -/
theorem c9_story_empty_words_short_circuit
    (api_key model language level length : List Char)
    (tmpl : Option (List Char)) (net : GenRequest → HttpOutcome) :
    generate_story_with_words [] api_key model language level length tmpl net =
      (NO_WORDS_MSG, []) := rfl

/-- C10: no string returned by `parse_response` contains an asterisk — the
markdown-stripping step removes every `**` and `*` occurrence from the whole
text before matching. -/
theorem c10_parse_response_no_asterisks (text : List Char) :
    (parse_response text).1.all (fun c => c != '*') = true ∧
    (parse_response text).2.1.all (fun c => c != '*') = true ∧
    (parse_response text).2.2.all (fun c => c != '*') = true :=
  ⟨fieldOf_star_free _ _ (stripMarkdown_star_free text),
    fieldOf_star_free _ _ (stripMarkdown_star_free text),
    fieldOf_star_free _ _ (stripMarkdown_star_free text)⟩

end LexiForge
